import Mathlib

/-!
Verification of the NeuMF (neural collaborative filtering) forward-inference
model described by this repository's recommender-systems notebook.

The notebook transcribes two NeuMF reference implementations as class
skeletons plus a prose, line-by-line account of their constructors and
forward passes.  The numeric computation is embedded over the rationals
(linear layers, ReLU, embedding lookups are exact there); the logistic
sigmoid, which is transcendental, lives over the reals.

Where the notebook gives only prose (the forward body, the construction
validation demanded by the spec), the corresponding definition carries a
doc comment saying what it is modelled from.
-/

/-- Dot product of two coordinate lists (truncating at the shorter one,
as the pointwise zip does). -/
def dot (a b : List ℚ) : ℚ :=
  ((a.zip b).map (fun p => p.1 * p.2)).sum

/-- Elementwise (Hadamard) product of two vectors. -/
def hadamard (a b : List ℚ) : List ℚ :=
  List.zipWith (fun x y => x * y) a b

/-- Rectified linear unit applied coordinatewise. -/
def relu (x : List ℚ) : List ℚ :=
  x.map (fun v => max v 0)

/-- A fully connected layer: one weight row per output feature, plus a bias
per output feature. -/
structure Linear where
  weight : List (List ℚ)
  bias : List ℚ
deriving Repr, DecidableEq

/-- Apply a fully connected layer to an input vector. -/
def applyLinear (l : Linear) (x : List ℚ) : List ℚ :=
  (l.weight.zip l.bias).map (fun wb => dot wb.1 x + wb.2)

/-- The final fusion layer: it maps its input to a single scalar logit, so it
is a weight vector together with a scalar bias. -/
structure Affine where
  weight : List ℚ
  bias : ℚ
deriving Repr, DecidableEq

/-- Apply the fusion layer, producing the scalar logit. -/
def Affine.apply (l : Affine) (x : List ℚ) : ℚ :=
  dot l.weight x + l.bias

/-- Modelled from the spec: dropout at training time zeroes a coordinate
whose mask bit is false and rescales the kept ones; the mask is supplied
externally (the spec treats training-mode randomness as out of scope and
only requires that inference disable it deterministically). -/
def dropLayer (p : ℚ) (keepf : Nat → Bool) (x : List ℚ) : List ℚ :=
  (x.enum).map (fun jv => if keepf jv.1 then jv.2 / (1 - p) else 0)

/-- One hidden MLP stage: linear transform, then ReLU, then (training mode
only) dropout — the order the spec's forward algorithm fixes. -/
def hiddenStep (p : ℚ) (training : Bool) (keep : Nat → Nat → Bool)
    (l : Nat) (lyr : Linear) (v : List ℚ) : List ℚ :=
  let r := relu (applyLinear lyr v)
  if training then dropLayer p (keep l) r else r

/-- The hidden MLP stack applied to a whole batch at once, stage by stage,
the way the framework evaluates it: every layer transforms the entire batch
before the next layer runs. -/
def hiddenBatch (p : ℚ) (training : Bool) (keep : Nat → Nat → Bool) :
    Nat → List Linear → List (List ℚ) → List (List ℚ)
  | _, [], batch => batch
  | l, lyr :: rest, batch =>
      hiddenBatch p training keep (l + 1) rest
        (batch.map (hiddenStep p training keep l lyr))

/-- The hidden MLP stack applied to a single example. -/
def hiddenOne (p : ℚ) (training : Bool) (keep : Nat → Nat → Bool) :
    Nat → List Linear → List ℚ → List ℚ
  | _, [], v => v
  | l, lyr :: rest, v =>
      hiddenOne p training keep (l + 1) rest (hiddenStep p training keep l lyr v)

/-- The hidden stack at inference: each layer is linear transform then ReLU,
applied in order. -/
def hiddenInfer (lys : List Linear) (v : List ℚ) : List ℚ :=
  lys.foldl (fun w l => relu (applyLinear l w)) v

/-- Forward-call failure taxonomy of the spec. -/
inductive FwdError where
  | outOfRange
  | shapeMismatch
deriving Repr, DecidableEq

/-- Construction failure taxonomy of the spec. -/
inductive BuildError where
  | invalidConfiguration
deriving Repr, DecidableEq

/-- The NeuMF model state: four embedding tables, the hidden MLP layers, the
fusion layer, and the configuration scalars recorded at construction.  This
follows the notebook's sketch of the NVIDIA `neumf.py` class. -/
structure NeuMF where
  nb_users : Nat
  nb_items : Nat
  mf_dim : Nat
  mlp_layer_sizes : List Nat
  dropout : ℚ
  mf_user_embed : List (List ℚ)
  mf_item_embed : List (List ℚ)
  mlp_user_embed : List (List ℚ)
  mlp_item_embed : List (List ℚ)
  mlp_layers : List Linear
  affine_output : Affine

/-- Modelled from the spec: the forward body of the notebook's first NeuMF
class is left as a stub, so the batch forward pass follows the spec's §4.2
algorithm — validate shapes and index ranges first (OutOfRange /
ShapeMismatch), then, batchwise: MF lookups and elementwise product, MLP
lookups and feature concatenation, the hidden linear+ReLU(+dropout) stack,
fusion concatenation, and the final affine layer producing one logit per
example. -/
def forwardMode (m : NeuMF) (training : Bool) (keep : Nat → Nat → Bool)
    (users items : List Nat) : Except FwdError (List ℚ) :=
  if users.length != items.length then
    .error .shapeMismatch
  else if !(users.all (fun u => u < m.nb_users) &&
            items.all (fun i => i < m.nb_items)) then
    .error .outOfRange
  else
    let xmfu := users.map (fun u => m.mf_user_embed.getD u [])
    let xmfi := items.map (fun i => m.mf_item_embed.getD i [])
    let mf_vector := List.zipWith hadamard xmfu xmfi
    let xmlpu := users.map (fun u => m.mlp_user_embed.getD u [])
    let xmlpi := items.map (fun i => m.mlp_item_embed.getD i [])
    let mlp_vector := List.zipWith (fun a b => a ++ b) xmlpu xmlpi
    let mlp_out := hiddenBatch m.dropout training keep 0 m.mlp_layers mlp_vector
    let fusion_vector := List.zipWith (fun a b => a ++ b) mlp_out mf_vector
    .ok (fusion_vector.map (fun v => m.affine_output.apply v))

/-- Inference-mode forward over the rationals: dropout disabled, producing
the raw logits. -/
def forwardQ (m : NeuMF) (users items : List Nat) : Except FwdError (List ℚ) :=
  forwardMode m false (fun _ _ => true) users items

/-- The logistic sigmoid. -/
noncomputable def sigmoid (x : ℝ) : ℝ :=
  1 / (1 + Real.exp (-x))

/-- Modelled from the spec: forward with the `apply_sigmoid` flag — the
logits of the rational forward pass, passed through the logistic sigmoid
when the flag is set and returned raw otherwise. -/
noncomputable def forward (m : NeuMF) (users items : List Nat)
    (apply_sigmoid : Bool) : Except FwdError (List ℝ) :=
  match forwardQ m users items with
  | .error e => .error e
  | .ok logits =>
      .ok (if apply_sigmoid then logits.map (fun q => sigmoid (q : ℝ))
           else logits.map (fun q => ((q : ℚ) : ℝ)))

/-- The model configuration of the spec's §3: counts are integers so that
non-positive values can be supplied (and rejected). -/
structure Config where
  user_count : Int
  item_count : Int
  mf_dim : Nat
  mlp_layer_sizes : List Int
  dropout : ℚ

/-- Modelled from the spec: the construction validation of §4.1 — the
notebook's transcription performs no validation, so this realizes the
spec's InvalidConfiguration conditions: empty layer list, a non-positive
width, an odd first width, or a non-positive user or item count. -/
def validConfig (c : Config) : Bool :=
  (0 < c.user_count) && (0 < c.item_count) &&
  !c.mlp_layer_sizes.isEmpty &&
  c.mlp_layer_sizes.all (fun w => 0 < w) &&
  (c.mlp_layer_sizes.headD 0) % 2 == 0

/-- A supply of concrete parameter values for construction.  The spec's
random initializers are distributions; the embedding abstracts the draw as
externally supplied value families so that construction stays a function. -/
structure ParamSource where
  mfUser : Nat → Nat → ℚ
  mfItem : Nat → Nat → ℚ
  mlpUser : Nat → Nat → ℚ
  mlpItem : Nat → Nat → ℚ
  hiddenW : Nat → Nat → Nat → ℚ
  hiddenB : Nat → Nat → ℚ
  outW : Nat → ℚ
  outB : ℚ

/-- Build a dense table of the given row count and row width from a value
family. -/
def mkTable (n d : Nat) (f : Nat → Nat → ℚ) : List (List ℚ) :=
  (List.range n).map (fun i => (List.range d).map (f i))

/-- Consecutive pairs of a width list: the input/output widths of the hidden
fully connected layers. -/
def consPairs : List Nat → List (Nat × Nat)
  | a :: b :: rest => (a, b) :: consPairs (b :: rest)
  | _ => []

/-- Build one hidden layer of the given output and input widths. -/
def mkLinear (outF inF : Nat) (wf : Nat → Nat → ℚ) (bf : Nat → ℚ) : Linear :=
  { weight := mkTable outF inF wf
    bias := (List.range outF).map bf }

/-- The constructor exactly as the notebook transcribes it (no validation):
four embedding tables — the MF pair of width `mf_dim`, the MLP pair of width
`mlp_layer_sizes[0] // 2` (integer floor division, as in the source) — the
hidden layers over consecutive width pairs, and the fusion layer of input
width `mlp_layer_sizes[-1] + mf_dim`. -/
def buildModel (c : Config) (ps : ParamSource) : NeuMF :=
  let nU := c.user_count.toNat
  let nI := c.item_count.toNat
  let sizes := c.mlp_layer_sizes.map Int.toNat
  let halfDim := sizes.headD 0 / 2
  { nb_users := nU
    nb_items := nI
    mf_dim := c.mf_dim
    mlp_layer_sizes := sizes
    dropout := c.dropout
    mf_user_embed := mkTable nU c.mf_dim ps.mfUser
    mf_item_embed := mkTable nI c.mf_dim ps.mfItem
    mlp_user_embed := mkTable nU halfDim ps.mlpUser
    mlp_item_embed := mkTable nI halfDim ps.mlpItem
    mlp_layers :=
      (consPairs sizes).enum.map
        (fun li => mkLinear li.2.2 li.2.1 (ps.hiddenW li.1) (ps.hiddenB li.1))
    affine_output :=
      { weight := (List.range (sizes.getLastD 0 + c.mf_dim)).map ps.outW
        bias := ps.outB } }

/-- Modelled from the spec: validated construction — reject an invalid
configuration with InvalidConfiguration, otherwise build the transcribed
model. -/
def build (c : Config) (ps : ParamSource) : Except BuildError NeuMF :=
  if validConfig c then .ok (buildModel c ps) else .error .invalidConfiguration

/-- Shape check for a table: row count and width of every row. -/
def hasShape (t : List (List ℚ)) (n d : Nat) : Bool :=
  (t.length == n) && t.all (fun r => r.length == d)

/-- The only operation the spec exposes on a constructed model: a forward
scoring call.  Requests carry the index batches. -/
structure Request where
  users : List Nat
  items : List Nat

/-- Serve one request: the model is read, never written, so it is returned
untouched beside the response. -/
def applyRequest (m : NeuMF) (r : Request) :
    NeuMF × Except FwdError (List ℚ) :=
  (m, forwardQ m r.users r.items)

/-- Serve a sequence of requests, threading the model state through. -/
def runRequests (m : NeuMF) : List Request → NeuMF × List (Except FwdError (List ℚ))
  | [] => (m, [])
  | r :: rest =>
      let (m1, resp) := applyRequest m r
      let (m2, resps) := runRequests m1 rest
      (m2, resp :: resps)

/-- The second NeuMF reference implementation the notebook transcribes: the
configuration-driven class with one `latent_dim_mlp` per side, an explicit
`fc_layers` module list and a sigmoid `logistic` output layer. -/
structure NeuMF2 where
  num_users : Nat
  num_items : Nat
  latent_dim_mf : Nat
  latent_dim_mlp : Nat
  embedding_user_mlp : List (List ℚ)
  embedding_item_mlp : List (List ℚ)
  embedding_user_mf : List (List ℚ)
  embedding_item_mf : List (List ℚ)
  fc_layers : List Linear
  affine_output : Affine

/-- The configuration consumed by the second implementation: counts, the two
latent dimensions, and the fully connected layer width list. -/
structure Config2 where
  num_users : Nat
  num_items : Nat
  latent_dim_mf : Nat
  latent_dim_mlp : Nat
  layers : List Nat

/-- The second implementation's constructor as the notebook describes it:
MLP and MF embedding pairs of widths `latent_dim_mlp` and `latent_dim_mf`,
`fc_layers` over consecutive pairs of `layers`, and an `affine_output`
taking `layers[-1] + latent_dim_mf` inputs to one output feature. -/
def buildModel2 (c : Config2) (ps : ParamSource) : NeuMF2 :=
  { num_users := c.num_users
    num_items := c.num_items
    latent_dim_mf := c.latent_dim_mf
    latent_dim_mlp := c.latent_dim_mlp
    embedding_user_mlp := mkTable c.num_users c.latent_dim_mlp ps.mlpUser
    embedding_item_mlp := mkTable c.num_items c.latent_dim_mlp ps.mlpItem
    embedding_user_mf := mkTable c.num_users c.latent_dim_mf ps.mfUser
    embedding_item_mf := mkTable c.num_items c.latent_dim_mf ps.mfItem
    fc_layers :=
      (consPairs c.layers).enum.map
        (fun li => mkLinear li.2.2 li.2.1 (ps.hiddenW li.1) (ps.hiddenB li.1))
    affine_output :=
      { weight := (List.range (c.layers.getLastD 0 + c.latent_dim_mf)).map ps.outW
        bias := ps.outB } }

/-- The second implementation's forward pass, step for step as the notebook
describes it: look up both embedding pairs, concatenate the MLP embeddings
into `mlp_vector` and likewise the MF embeddings into `mf_vector`, run
`mlp_vector` through the ReLU fully connected layers, concatenate the two
vectors, apply `affine_output`, and pass the result through the sigmoid
(this implementation applies the sigmoid unconditionally). -/
noncomputable def forward2 (m : NeuMF2) (user_indices item_indices : List Nat) :
    List ℝ :=
  let user_mlp := user_indices.map (fun u => m.embedding_user_mlp.getD u [])
  let item_mlp := item_indices.map (fun i => m.embedding_item_mlp.getD i [])
  let user_mf := user_indices.map (fun u => m.embedding_user_mf.getD u [])
  let item_mf := item_indices.map (fun i => m.embedding_item_mf.getD i [])
  let mlp_vector := List.zipWith (fun a b => a ++ b) user_mlp item_mlp
  let mf_vector := List.zipWith (fun a b => a ++ b) user_mf item_mf
  let mlp_out := mlp_vector.map (fun v => hiddenInfer m.fc_layers v)
  let vector := List.zipWith (fun a b => a ++ b) mlp_out mf_vector
  let logits := vector.map (fun v => m.affine_output.apply v)
  logits.map (fun q => sigmoid (q : ℝ))

/-- A minimal concrete parameter supply used by the concrete scenarios: MF
embeddings hold 2 (user) and 3 (item), MLP embeddings hold 5 (user) and 7
(item), hidden and output weights are all 1, biases 0. -/
def psDemo : ParamSource :=
  { mfUser := fun _ _ => 2
    mfItem := fun _ _ => 3
    mlpUser := fun _ _ => 5
    mlpItem := fun _ _ => 7
    hiddenW := fun _ _ _ => 1
    hiddenB := fun _ _ => 0
    outW := fun _ => 1
    outB := 0 }

/-- A one-user, one-item configuration with no hidden layer, small enough to
evaluate by hand: `mf_dim = 1`, `mlp_layer_sizes = [2]`. -/
def cfgTiny : Config :=
  { user_count := 1, item_count := 1, mf_dim := 1
    mlp_layer_sizes := [2], dropout := 0 }

/-- The transcribed model built from the tiny configuration. -/
def mTiny : NeuMF := buildModel cfgTiny psDemo

/-- The matching configuration for the second implementation: the same
counts, both latent dimensions 1, the same layer width list. -/
def cfg2Tiny : Config2 :=
  { num_users := 1, num_items := 1, latent_dim_mf := 1
    latent_dim_mlp := 1, layers := [2] }

/-- The second implementation's model built from the matching configuration
and the same parameter supply. -/
def m2Tiny : NeuMF2 := buildModel2 cfg2Tiny psDemo

/-- The spec's concrete valid scenario: ten users, twenty items, `mf_dim 4`,
hidden widths `[8, 8, 4, 2]`. -/
def cfgDemo : Config :=
  { user_count := 10, item_count := 20, mf_dim := 4
    mlp_layer_sizes := [8, 8, 4, 2], dropout := 0 }

/-- The model of the spec's concrete valid scenario. -/
def mDemo : NeuMF := buildModel cfgDemo psDemo

/-- The spec's construction-failure scenario: an odd first hidden width. -/
def cfgOdd : Config :=
  { user_count := 10, item_count := 20, mf_dim := 4
    mlp_layer_sizes := [7, 4], dropout := 0 }

/-- The per-example score of the inference forward pass, written in the
spec's §4.2 order: MF elementwise product, MLP concatenation, the hidden
stack, fusion concatenation, final affine layer. -/
def scorePair (m : NeuMF) (u i : Nat) : ℚ :=
  let mf_vector := hadamard (m.mf_user_embed.getD u []) (m.mf_item_embed.getD i [])
  let mlp_vector := (m.mlp_user_embed.getD u []) ++ (m.mlp_item_embed.getD i [])
  let mlp_out := hiddenInfer m.mlp_layers mlp_vector
  let fusion_vector := mlp_out ++ mf_vector
  m.affine_output.apply fusion_vector

theorem zipWith_eq_zip_map {α β γ : Type} (h : α → β → γ) (l : List α) (l2 : List β) :
    List.zipWith h l l2 = (l.zip l2).map (fun p => h p.1 p.2) := by
  induction l generalizing l2 with
  | nil => simp
  | cons a as ih =>
    cases l2 with
    | nil => simp
    | cons b bs => simp [ih]

theorem zipWith_pair_same {α β γ δ ε : Type} (h : γ → δ → ε) (f : α → β → γ)
    (g : α → β → δ) (l : List α) (l2 : List β) :
    List.zipWith h (List.zipWith f l l2) (List.zipWith g l l2) =
      List.zipWith (fun a b => h (f a b) (g a b)) l l2 := by
  induction l generalizing l2 with
  | nil => simp
  | cons a as ih =>
    cases l2 with
    | nil => simp
    | cons b bs => simp [ih]

theorem hiddenBatch_map (p : ℚ) (t : Bool) (k : Nat → Nat → Bool)
    (lys : List Linear) (l : Nat) (batch : List (List ℚ)) :
    hiddenBatch p t k l lys batch = batch.map (hiddenOne p t k l lys) := by
  induction lys generalizing l batch with
  | nil => simp [hiddenBatch, hiddenOne]
  | cons lyr rest ih =>
    simp only [hiddenBatch, hiddenOne, ih, List.map_map]
    rfl

theorem hiddenOne_false (p : ℚ) (k : Nat → Nat → Bool) (lys : List Linear)
    (l : Nat) (v : List ℚ) :
    hiddenOne p false k l lys v = hiddenInfer lys v := by
  induction lys generalizing l v with
  | nil => simp [hiddenOne, hiddenInfer]
  | cons lyr rest ih => simp [hiddenOne, hiddenInfer, hiddenStep, ih, List.foldl_cons]

theorem forwardMode_ok (m : NeuMF) (keep : Nat → Nat → Bool)
    (users items : List Nat)
    (hlen : users.length = items.length)
    (hu : users.all (fun u => u < m.nb_users) = true)
    (hi : items.all (fun i => i < m.nb_items) = true) :
    forwardMode m false keep users items =
      .ok ((users.zip items).map (fun p => scorePair m p.1 p.2)) := by
  unfold forwardMode
  rw [if_neg (by simp [hlen]), if_neg (by simp [hu, hi])]
  simp only [hiddenBatch_map, List.zipWith_map, List.map_zipWith, List.map_map,
    zipWith_pair_same, Function.comp]
  rw [zipWith_eq_zip_map]
  simp only [hiddenOne_false]
  rfl

theorem getD_map_range {γ : Type} (g : Nat → γ) (n u : Nat) (d : γ) (h : u < n) :
    ((List.range n).map g).getD u d = g u := by
  rw [List.getD_eq_getElem?_getD, List.getElem?_map, List.getElem?_range h]
  rfl

theorem zip_map_getD {α β γ : Type} (f : α × β → γ) (u : List α) (i : List β)
    (k : Nat) (du : α) (di : β) (dg : γ) (hku : k < u.length) (hki : k < i.length) :
    ((u.zip i).map f).getD k dg = f (u.getD k du, i.getD k di) := by
  induction u generalizing i k with
  | nil => simp at hku
  | cons a as ih =>
    cases i with
    | nil => simp at hki
    | cons b bs =>
      cases k with
      | zero => rfl
      | succ k =>
        simp only [List.zip_cons_cons, List.map_cons, List.getD_cons_succ]
        exact ih bs k (by simpa using hku) (by simpa using hki)

theorem headD_map_toNat (l : List Int) :
    (l.map Int.toNat).headD 0 = (l.headD 0).toNat := by
  cases l <;> rfl

theorem optionMap_toNat_getD (o : Option Int) :
    (o.map Int.toNat).getD 0 = (o.getD 0).toNat := by
  cases o <;> rfl

theorem hiddenOne_false_fun (p : ℚ) (k : Nat → Nat → Bool) (lys : List Linear)
    (l : Nat) : hiddenOne p false k l lys = hiddenInfer lys :=
  funext (hiddenOne_false p k lys l)

theorem getLastD_map_toNat (l : List Int) (d : Int) :
    (l.map Int.toNat).getLastD d.toNat = (l.getLastD d).toNat := by
  induction l generalizing d with
  | nil => rfl
  | cons a as ih =>
    rw [List.map_cons, List.getLastD_cons, List.getLastD_cons]
    exact ih a

theorem mkTable_hasShape (n d : Nat) (f : Nat → Nat → ℚ) :
    hasShape (mkTable n d f) n d = true := by
  simp [hasShape, mkTable, List.all_eq_true]

theorem mkTable_getD (n d : Nat) (f : Nat → Nat → ℚ) (u : Nat) (h : u < n) :
    (mkTable n d f).getD u [] = (List.range d).map (f u) := by
  unfold mkTable
  exact getD_map_range _ n u [] h

theorem runRequests_fst (m : NeuMF) (reqs : List Request) :
    (runRequests m reqs).1 = m := by
  induction reqs with
  | nil => rfl
  | cons r rest ih => simp [runRequests, applyRequest, ih]

theorem sigmoid_pos (x : ℝ) : 0 < sigmoid x := by
  unfold sigmoid
  positivity

theorem sigmoid_lt_one (x : ℝ) : sigmoid x < 1 := by
  unfold sigmoid
  rw [div_lt_one (by positivity)]
  have := Real.exp_pos (-x)
  linarith

theorem sigmoid_lt_sigmoid {x y : ℝ} (h : x < y) : sigmoid x < sigmoid y := by
  unfold sigmoid
  have hx := Real.exp_pos (-x)
  have hy := Real.exp_pos (-y)
  have hexp : Real.exp (-y) < Real.exp (-x) := Real.exp_lt_exp.mpr (by linarith)
  rw [div_lt_div_iff₀ (by linarith) (by linarith)]
  linarith

theorem all_map_getD_lt (users sel : List Nat) (n : Nat)
    (hu : users.all (fun u => u < n) = true)
    (hsel : sel.all (fun k => k < users.length) = true) :
    (sel.map (fun k => users.getD k 0)).all (fun u => u < n) = true := by
  simp only [List.all_eq_true, decide_eq_true_eq, List.mem_map] at *
  rintro x ⟨k, hk, rfl⟩
  have hklen := hsel k hk
  have hmem : users.getD k 0 ∈ users := by
    rw [List.getD_eq_getElem?_getD, List.getElem?_eq_getElem hklen]
    exact List.getElem_mem hklen
  exact hu _ hmem

theorem forwardQ_mTiny : forwardQ mTiny [0] [0] = .ok [18] := by
  norm_num [forwardQ, forwardMode, mTiny, buildModel, cfgTiny, psDemo, mkTable, hiddenBatch,
    consPairs, hadamard, Affine.apply, dot, List.range_succ, Int.toNat_ofNat, List.replicate]

theorem forwardQ_mTiny_pair : forwardQ mTiny [0, 0] [0, 0] = .ok [18, 18] := by
  norm_num [forwardQ, forwardMode, mTiny, buildModel, cfgTiny, psDemo, mkTable, hiddenBatch,
    consPairs, hadamard, Affine.apply, dot, List.range_succ, Int.toNat_ofNat, List.replicate]

/-- C1: for every valid batch, the forward pass computes, per input pair and
in exactly this order: the elementwise product of the MF embedding lookups
into `mf_vector`, the feature concatenation of the MLP embedding lookups
into `mlp_vector`, the hidden linear+ReLU layers folded over `mlp_vector`
in order, the concatenation of the final MLP output with `mf_vector` into
`fusion_vector`, and the final affine layer on `fusion_vector`. -/
theorem neumf_forward_pipeline_order (m : NeuMF) (users items : List Nat)
    (hlen : users.length = items.length)
    (hu : users.all (fun u => u < m.nb_users) = true)
    (hi : items.all (fun i => i < m.nb_items) = true) :
    forwardQ m users items =
      .ok ((users.zip items).map (fun p =>
        let mf_vector :=
          hadamard (m.mf_user_embed.getD p.1 []) (m.mf_item_embed.getD p.2 [])
        let mlp_vector :=
          (m.mlp_user_embed.getD p.1 []) ++ (m.mlp_item_embed.getD p.2 [])
        let mlp_out := m.mlp_layers.foldl (fun w l => relu (applyLinear l w)) mlp_vector
        let fusion_vector := mlp_out ++ mf_vector
        m.affine_output.apply fusion_vector)) := by
  have h := forwardMode_ok m (fun _ _ => true) users items hlen hu hi
  simpa [forwardQ, scorePair, hiddenInfer] using h

/-- Witness for C1: the spec's concrete scenario model with the batch of
three user/item pairs. -/
theorem neumf_forward_pipeline_order_witness :
    forwardQ mDemo [0, 1, 2] [5, 6, 7] =
      .ok (([0, 1, 2].zip [5, 6, 7]).map (fun p =>
        let mf_vector :=
          hadamard (mDemo.mf_user_embed.getD p.1 []) (mDemo.mf_item_embed.getD p.2 [])
        let mlp_vector :=
          (mDemo.mlp_user_embed.getD p.1 []) ++ (mDemo.mlp_item_embed.getD p.2 [])
        let mlp_out :=
          mDemo.mlp_layers.foldl (fun w l => relu (applyLinear l w)) mlp_vector
        let fusion_vector := mlp_out ++ mf_vector
        mDemo.affine_output.apply fusion_vector)) :=
  neumf_forward_pipeline_order mDemo [0, 1, 2] [5, 6, 7] rfl (by decide) (by decide)

/-- C2: when the sigmoid flag is set, forward returns the logistic sigmoid
of every fusion-layer logit and every returned value lies strictly between
0 and 1; when the flag is clear, forward returns the raw logits. -/
theorem forward_sigmoid_flag (m : NeuMF) (users items : List Nat) (logits : List ℚ)
    (h : forwardQ m users items = .ok logits) :
    forward m users items true = .ok (logits.map (fun q => sigmoid (q : ℝ))) ∧
    (∀ y ∈ logits.map (fun q => sigmoid (q : ℝ)), 0 < y ∧ y < 1) ∧
    forward m users items false = .ok (logits.map (fun q => ((q : ℚ) : ℝ))) := by
  refine ⟨by simp [forward, h], ?_, by simp [forward, h]⟩
  intro y hy
  simp only [List.mem_map] at hy
  obtain ⟨q, _, rfl⟩ := hy
  exact ⟨sigmoid_pos _, sigmoid_lt_one _⟩

/-- Witness for C2: the tiny model scores its only pair with logit 18; with
the flag the output is the sigmoid of 18 and lies in the open unit
interval, without it the output is the raw 18. -/
theorem forward_sigmoid_flag_witness :
    forward mTiny [0] [0] true = .ok [sigmoid ((18 : ℚ) : ℝ)] ∧
    (0 < sigmoid ((18 : ℚ) : ℝ) ∧ sigmoid ((18 : ℚ) : ℝ) < 1) ∧
    forward mTiny [0] [0] false = .ok [((18 : ℚ) : ℝ)] := by
  obtain ⟨h1, h2, h3⟩ := forward_sigmoid_flag mTiny [0] [0] [18] forwardQ_mTiny
  exact ⟨by simpa using h1, h2 _ (by simp), by simpa using h3⟩

/-- C3: validated construction fails with InvalidConfiguration whenever the
layer list is empty, contains a non-positive width, has an odd first width,
or either count is non-positive. -/
theorem build_rejects_invalid_config (c : Config) (ps : ParamSource)
    (h : c.mlp_layer_sizes = [] ∨ (∃ w ∈ c.mlp_layer_sizes, w ≤ 0) ∨
      c.mlp_layer_sizes.headD 0 % 2 ≠ 0 ∨ c.user_count ≤ 0 ∨ c.item_count ≤ 0) :
    build c ps = .error .invalidConfiguration := by
  have hv : ¬ validConfig c = true := by
    intro hv
    simp only [validConfig, Bool.and_eq_true, decide_eq_true_eq, Bool.not_eq_true',
      List.all_eq_true, beq_iff_eq] at hv
    obtain ⟨⟨⟨⟨hu0, hi0⟩, hne⟩, hall⟩, hhead⟩ := hv
    rcases h with h | ⟨w, hw, hw0⟩ | h | h | h
    · simp [h] at hne
    · exact absurd (hall w hw) (by omega)
    · exact h hhead
    · omega
    · omega
  rw [build, if_neg hv]

/-- Witness for C3: the spec's construction-failure scenario, a first
hidden width of 7. -/
theorem build_rejects_invalid_config_witness :
    build cfgOdd psDemo = .error .invalidConfiguration :=
  build_rejects_invalid_config cfgOdd psDemo (by right; right; left; decide)

/-- C4: a forward call with mismatched batch lengths fails with
ShapeMismatch, one with an out-of-range user or item index fails with
OutOfRange, and every call either returns a complete score batch (one score
per input pair) or fails with an error before producing any output. -/
theorem forward_failure_semantics (m : NeuMF) (users items : List Nat) :
    (users.length ≠ items.length → forwardQ m users items = .error .shapeMismatch) ∧
    (users.length = items.length →
      ((∃ u ∈ users, m.nb_users ≤ u) ∨ (∃ i ∈ items, m.nb_items ≤ i)) →
      forwardQ m users items = .error .outOfRange) ∧
    ((∃ out, forwardQ m users items = .ok out ∧ out.length = users.length ∧
        out.length = items.length) ∨
      (∃ e, forwardQ m users items = .error e)) := by
  refine ⟨?_, ?_, ?_⟩
  · intro hne
    rw [forwardQ, forwardMode, if_pos (by simpa using hne)]
  · intro hlen hbad
    rw [forwardQ, forwardMode, if_neg (by simp [hlen]), if_pos ?_]
    simp only [Bool.not_eq_eq_eq_not, Bool.not_true, Bool.and_eq_false_iff]
    rcases hbad with ⟨u, hu, hnb⟩ | ⟨i, hi, hnb⟩
    · exact Or.inl (by simpa using ⟨u, hu, by omega⟩)
    · exact Or.inr (by simpa using ⟨i, hi, by omega⟩)
  · by_cases hlen : users.length = items.length
    · by_cases hall : users.all (fun u => u < m.nb_users) = true ∧
        items.all (fun i => i < m.nb_items) = true
      · refine Or.inl ⟨_, forwardMode_ok m _ users items hlen hall.1 hall.2, ?_, ?_⟩ <;>
          simp [hlen]
      · refine Or.inr ⟨.outOfRange, ?_⟩
        rw [forwardQ, forwardMode, if_neg (by simp [hlen]), if_pos ?_]
        simp only [Bool.not_eq_eq_eq_not, Bool.not_true, Bool.and_eq_false_iff]
        rcases not_and_or.mp hall with h | h
        · exact Or.inl (Bool.eq_false_iff.mpr h)
        · exact Or.inr (Bool.eq_false_iff.mpr h)
    · exact Or.inr ⟨.shapeMismatch, by rw [forwardQ, forwardMode, if_pos (by simpa using hlen)]⟩

/-- Witness for C4: the spec's out-of-range scenario — user index 10 with
ten users — fails with OutOfRange, and the mismatched-length scenario fails
with ShapeMismatch. -/
theorem forward_failure_semantics_witness :
    forwardQ mDemo [10] [0] = .error .outOfRange ∧
    forwardQ mDemo [0, 1, 2] [5, 6] = .error .shapeMismatch := by
  refine ⟨(forward_failure_semantics mDemo [10] [0]).2.1 rfl ?_, ?_⟩
  · exact Or.inl ⟨10, by simp, by decide⟩
  · exact (forward_failure_semantics mDemo [0, 1, 2] [5, 6]).1 (by decide)

/-- C5: a valid configuration builds the two MF-branch embedding tables of
shapes (user_count, mf_dim) and (item_count, mf_dim) and the two MLP-branch
tables of shapes (user_count, mlp_layer_sizes[0]/2) and
(item_count, mlp_layer_sizes[0]/2). -/
theorem build_embedding_table_shapes (c : Config) (ps : ParamSource)
    (h : validConfig c = true) :
    build c ps = .ok (buildModel c ps) ∧
    hasShape (buildModel c ps).mf_user_embed c.user_count.toNat c.mf_dim = true ∧
    hasShape (buildModel c ps).mf_item_embed c.item_count.toNat c.mf_dim = true ∧
    hasShape (buildModel c ps).mlp_user_embed c.user_count.toNat
      ((c.mlp_layer_sizes.headD 0).toNat / 2) = true ∧
    hasShape (buildModel c ps).mlp_item_embed c.item_count.toNat
      ((c.mlp_layer_sizes.headD 0).toNat / 2) = true := by
  refine ⟨by rw [build, if_pos h], ?_, ?_, ?_, ?_⟩ <;>
    simp [buildModel, headD_map_toNat, optionMap_toNat_getD, mkTable_hasShape]

/-- Witness for C5: the spec's concrete valid scenario, ten users, twenty
items, mf_dim 4, first hidden width 8. -/
theorem build_embedding_table_shapes_witness :
    build cfgDemo psDemo = .ok mDemo ∧
    hasShape mDemo.mf_user_embed 10 4 = true ∧
    hasShape mDemo.mf_item_embed 20 4 = true ∧
    hasShape mDemo.mlp_user_embed 10 4 = true ∧
    hasShape mDemo.mlp_item_embed 20 4 = true := by
  obtain ⟨h1, h2, h3, h4, h5⟩ := build_embedding_table_shapes cfgDemo psDemo (by decide)
  exact ⟨h1, h2, h3, h4, h5⟩

/-- C6: for every successfully constructed model, the fusion layer's input
dimension is exactly mlp_layer_sizes[-1] + mf_dim, and no operation on the
model changes it: any sequence of forward requests leaves the model — and
hence this dimension — untouched. -/
theorem fusion_input_dim_fixed (c : Config) (ps : ParamSource) (m : NeuMF)
    (h : build c ps = .ok m) :
    m.affine_output.weight.length =
      (c.mlp_layer_sizes.getLastD 0).toNat + c.mf_dim ∧
    ∀ reqs : List Request, (runRequests m reqs).1 = m := by
  have hm : m = buildModel c ps := by
    by_cases hv : validConfig c = true
    · rw [build, if_pos hv] at h
      exact (Except.ok.inj h).symm
    · rw [build, if_neg hv] at h
      exact absurd h (by simp)
  subst hm
  refine ⟨?_, runRequests_fst _⟩
  have h0 : (0 : Nat) = (0 : Int).toNat := rfl
  simp only [buildModel, List.length_map, List.length_range]
  rw [h0, getLastD_map_toNat]

/-- Witness for C6: the spec's concrete valid scenario; the fusion input
dimension is 2 + 4 and a request leaves the model unchanged. -/
theorem fusion_input_dim_fixed_witness :
    mDemo.affine_output.weight.length =
      ((cfgDemo.mlp_layer_sizes.getLastD 0).toNat + cfgDemo.mf_dim) ∧
    (runRequests mDemo [{ users := [0], items := [5] }]).1 = mDemo := by
  obtain ⟨h1, h2⟩ := fusion_input_dim_fixed cfgDemo psDemo mDemo
    (by rw [build, if_pos (by decide)]; rfl)
  exact ⟨h1, h2 _⟩

/-- C7: a successful forward call returns exactly one scalar per input pair,
and reindexing the input batch reindexes the output identically: scoring the
selected pairs equals selecting from the original output. -/
theorem forward_output_length_order (m : NeuMF) (users items : List Nat)
    (out : List ℚ) (sel : List Nat)
    (hlen : users.length = items.length)
    (hu : users.all (fun u => u < m.nb_users) = true)
    (hi : items.all (fun i => i < m.nb_items) = true)
    (hout : forwardQ m users items = .ok out)
    (hsel : sel.all (fun k => k < users.length) = true) :
    out.length = users.length ∧
    forwardQ m (sel.map (fun k => users.getD k 0)) (sel.map (fun k => items.getD k 0)) =
      .ok (sel.map (fun k => out.getD k 0)) := by
  have hfm := forwardMode_ok m (fun _ _ => true) users items hlen hu hi
  rw [forwardQ] at hout
  rw [hfm] at hout
  have hout' : out = (users.zip items).map (fun p => scorePair m p.1 p.2) :=
    (Except.ok.inj hout).symm
  constructor
  · simp [hout', hlen]
  · have hlen2 : (sel.map (fun k => users.getD k 0)).length =
        (sel.map (fun k => items.getD k 0)).length := by simp
    have hu2 := all_map_getD_lt users sel m.nb_users hu hsel
    have hi2 := all_map_getD_lt items sel m.nb_items hi (by rw [← hlen]; exact hsel)
    have h2 := forwardMode_ok m (fun _ _ => true) _ _ hlen2 hu2 hi2
    rw [forwardQ, h2]
    congr 1
    rw [List.zip_map', List.map_map]
    apply List.map_congr_left
    intro k hk
    have hku : k < users.length := by
      have := List.all_eq_true.mp hsel k hk
      simpa using this
    have hki : k < items.length := hlen ▸ hku
    simp only [Function.comp_apply, hout']
    exact (zip_map_getD (fun p => scorePair m p.1 p.2) users items k 0 0 0 hku hki).symm

/-- Witness for C7: the tiny model on two identical pairs, reindexed by the
swap of the two positions. -/
theorem forward_output_length_order_witness :
    ([(18 : ℚ), 18] : List ℚ).length = ([0, 0] : List Nat).length ∧
    forwardQ mTiny ([1, 0].map (fun k => [0, 0].getD k 0))
        ([1, 0].map (fun k => [0, 0].getD k 0)) =
      .ok ([1, 0].map (fun k => ([(18 : ℚ), 18]).getD k 0)) :=
  forward_output_length_order mTiny [0, 0] [0, 0] [18, 18] [1, 0] rfl
    (by decide) (by decide) forwardQ_mTiny_pair (by decide)

/-- C8: with dropout disabled (inference mode) the forward pass does not
depend on the dropout mask: any two mask sources produce identical outputs,
both equal to the pure inference forward of the same parameters and
inputs. -/
theorem forward_inference_deterministic (m : NeuMF) (users items : List Nat)
    (keep1 keep2 : Nat → Nat → Bool) :
    forwardMode m false keep1 users items = forwardMode m false keep2 users items ∧
    forwardMode m false keep1 users items = forwardQ m users items := by
  have key : ∀ keep : Nat → Nat → Bool,
      forwardMode m false keep users items =
        forwardMode m false (fun _ _ => true) users items := by
    intro keep
    unfold forwardMode
    simp only [hiddenBatch_map, hiddenOne_false_fun]
  exact ⟨(key keep1).trans (key keep2).symm, key keep1⟩

theorem forward2_m2Tiny : forward2 m2Tiny [0] [0] = [sigmoid 14] := by
  norm_num [forward2, m2Tiny, buildModel2, cfg2Tiny, psDemo, mkTable, consPairs,
    hiddenInfer, Affine.apply, dot, List.range_succ, List.replicate]

/-- C9: the two transcribed NCF reference implementations diverge — built
from matching configurations (one user, one item, latent dimension one for
both branches, layer list [2]) and the same parameter supply, the first
implementation scores the pair (0, 0) as the raw logit 18 (or its sigmoid
when the flag is set) while the second returns the sigmoid of 14, and these
outputs differ under either flag setting. -/
theorem transcribed_implementations_diverge :
    forward mTiny [0] [0] false = .ok [(18 : ℝ)] ∧
    forward mTiny [0] [0] true = .ok [sigmoid (18 : ℝ)] ∧
    forward2 m2Tiny [0] [0] = [sigmoid (14 : ℝ)] ∧
    forward2 m2Tiny [0] [0] ≠ [(18 : ℝ)] ∧
    forward2 m2Tiny [0] [0] ≠ [sigmoid (18 : ℝ)] := by
  refine ⟨by norm_num [forward, forwardQ_mTiny], by norm_num [forward, forwardQ_mTiny],
    forward2_m2Tiny, ?_, ?_⟩
  · rw [forward2_m2Tiny]
    have h1 := sigmoid_lt_one (14 : ℝ)
    intro hc
    have : sigmoid (14 : ℝ) = 18 := by simpa using hc
    linarith
  · rw [forward2_m2Tiny]
    have h1 : sigmoid (14 : ℝ) < sigmoid (18 : ℝ) := sigmoid_lt_sigmoid (by norm_num)
    intro hc
    have : sigmoid (14 : ℝ) = sigmoid (18 : ℝ) := by simpa using hc
    linarith

/-- C10: with an odd positive first hidden width the transcribed constructor
does not fail — the spec's validation would reject the configuration, but
the constructor still builds the model, with both MLP embedding widths the
integer floor of half the first width, so the concatenated MLP input vector
has dimension one less than the first width. -/
theorem transcribed_constructor_odd_first_width (c : Config) (ps : ParamSource)
    (hodd : c.mlp_layer_sizes.headD 0 % 2 = 1)
    (hpos : 0 < c.mlp_layer_sizes.headD 0) :
    validConfig c = false ∧
    hasShape (buildModel c ps).mlp_user_embed c.user_count.toNat
      ((c.mlp_layer_sizes.headD 0).toNat / 2) = true ∧
    hasShape (buildModel c ps).mlp_item_embed c.item_count.toNat
      ((c.mlp_layer_sizes.headD 0).toNat / 2) = true ∧
    ∀ u i : Nat, u < c.user_count.toNat → i < c.item_count.toNat →
      (((buildModel c ps).mlp_user_embed.getD u []) ++
          ((buildModel c ps).mlp_item_embed.getD i [])).length =
        (c.mlp_layer_sizes.headD 0).toNat - 1 := by
  refine ⟨?_, ?_, ?_, ?_⟩
  · have h2 : ((c.mlp_layer_sizes.headD 0) % 2 == 0) = false := by
      rw [hodd]; rfl
    simp only [validConfig]
    rw [h2, Bool.and_false]
  · simp [buildModel, headD_map_toNat, optionMap_toNat_getD, mkTable_hasShape]
  · simp [buildModel, headD_map_toNat, optionMap_toNat_getD, mkTable_hasShape]
  · intro u i hu hi
    have hgu : (buildModel c ps).mlp_user_embed.getD u [] =
        (List.range ((c.mlp_layer_sizes.map Int.toNat).headD 0 / 2)).map (ps.mlpUser u) :=
      mkTable_getD _ _ _ u hu
    have hgi : (buildModel c ps).mlp_item_embed.getD i [] =
        (List.range ((c.mlp_layer_sizes.map Int.toNat).headD 0 / 2)).map (ps.mlpItem i) :=
      mkTable_getD _ _ _ i hi
    rw [List.length_append, hgu, hgi]
    simp only [List.length_map, List.length_range, headD_map_toNat]
    omega

/-- Witness for C10: the spec's construction-failure configuration [7, 4];
the transcribed constructor builds MLP tables of width 3 and the
concatenated MLP input has dimension 6 = 7 - 1. -/
theorem transcribed_constructor_odd_first_width_witness :
    validConfig cfgOdd = false ∧
    hasShape (buildModel cfgOdd psDemo).mlp_user_embed 10 3 = true ∧
    hasShape (buildModel cfgOdd psDemo).mlp_item_embed 20 3 = true ∧
    (((buildModel cfgOdd psDemo).mlp_user_embed.getD 0 []) ++
        ((buildModel cfgOdd psDemo).mlp_item_embed.getD 0 [])).length = 6 := by
  obtain ⟨h1, h2, h3, h4⟩ :=
    transcribed_constructor_odd_first_width cfgOdd psDemo (by decide) (by decide)
  exact ⟨h1, h2, h3, h4 0 0 (by decide) (by decide)⟩
